import Mathlib

/-!
Verification development for `higlass_manage/update_viewconfs.py`.

The file embeds, as executable Lean definitions, the parts of the script that
the specification talks about: the endpoint canonicalization, the SQLite
`replace`-based rewrite of viewconf records, the transactional `UPDATE`, the
backup phase, the overall run sequencing with its effects on the file system,
and the textual construction of the SQL query.  The theorems settle the
specification claims against these definitions.
-/

namespace HiglassManage

/-- Python strings are modelled as lists of characters. -/
abbrev Str := List Char

/-- Scanner underlying SQLite `replace(X, Y, Z)`: walk `X` left to right; at
each position, if the pattern `Y` starts there, emit `Z` and skip past the
matched occurrence, otherwise emit the current character and advance by one.
The fuel argument (initialized to the length of `X`, and an upper bound for it
throughout) makes the recursion structural so that the kernel can evaluate the
function. -/
def sqliteReplaceAux (pat rep : Str) : Nat → Str → Str
  | _, [] => []
  | 0, c :: cs => c :: cs
  | fuel + 1, c :: cs =>
    if pat.isPrefixOf (c :: cs) then
      rep ++ sqliteReplaceAux pat rep fuel (List.drop pat.length (c :: cs))
    else
      c :: sqliteReplaceAux pat rep fuel cs

/-- SQLite `replace(X, Y, Z)` (argument order as in the SQL function): the
string formed by substituting `Z` for every leftmost, non-overlapping
occurrence of `Y` in `X`.  When `Y` is the empty string SQLite returns `X`
unchanged. -/
def sqliteReplace (s pat rep : Str) : Str :=
  if pat.isEmpty then s else sqliteReplaceAux pat rep s.length s

/-- Join a list of pieces, interleaving a separator: the shape of a string
decomposed at the occurrences of a pattern. -/
def joinWith (sep : Str) : List Str → Str
  | [] => []
  | [p] => p
  | p :: q :: rest => p ++ sep ++ joinWith sep (q :: rest)

/-- Endpoint canonicalization from the source: the endpoint is `site_url` when
the port is the string `"80"`, and `site_url ++ ":" ++ port` otherwise
(`origin = old_site_url if (old_port == "80") else f"{old_site_url}:{old_port}"`,
and identically for the destination). -/
def endpointOf (site_url port : Str) : Str :=
  if port = ['8', '0'] then site_url else site_url ++ ':' :: port

/-- Endpoint resolution including the CLI layer: `click` supplies the default
port string `"80"` when the port flag is absent (modelled as `none`). -/
def resolveEndpoint (site_url : Str) (port : Option Str) : Str :=
  endpointOf site_url (port.getD ['8', '0'])

/-- The body of the SQL statement `UPDATE tilesets_viewconf SET viewconf =
replace(viewconf, origin, destination)` applied to a snapshot, which is
modelled as the list of the `viewconf` text blobs of its records. -/
def rewriteSnapshot (db : List Str) (origin destination : Str) : List Str :=
  db.map (fun v => sqliteReplace v origin destination)

/-- Journal contents once the `UPDATE` has processed the first `k` records:
those records carry the replaced text, the remaining ones are untouched. -/
def updateJournal (f : Str → Str) (k : Nat) (db : List Str) : List Str :=
  (db.take k).map f ++ db.drop k

/-- Semantics of the `with conn:` block around the single `UPDATE` statement:
the sqlite transaction either commits, making every record's replacement
visible at once, or fails at some record index, in which case the rollback
discards the journal and the visible records are the pre-rewrite ones.  The
Boolean reports whether the transaction committed. -/
def runUpdateTxn (f : Str → Str) (failAt : Option Nat) (db : List Str) :
    List Str × Bool :=
  match failAt with
  | none => (updateJournal f db.length db, true)
  | some _ => (db, false)

/-- CLI inputs as delivered by the `click` layer: optional flags are `Option`s,
and the two port flags carry their declared default `"80"` when absent. -/
structure CliInputs where
  old_hg_name : Option Str
  old_site_url : Option Str
  old_port : Str
  old_data_dir : Option Str
  new_site_url : Str
  new_port : Str

/-- Outcome of invoking the external `sqlite3` backup tool: either the process
ran, returning an exit code after writing some content at the target path, or
the binary is not installed (`sp.run` raises `OSError`, writing nothing). -/
inductive BackupOutcome where
  | toolRan (returncode : Int) (written : List Str)
  | toolMissing

/-- Behavior of the external collaborators during one run: the docker registry
lookup for the named instance (`none` models `docker.errors.NotFound` being
raised), the backup tool, whether `sqlite3.connect` succeeds on the snapshot,
and whether (and at which record) the UPDATE transaction fails. -/
structure World where
  lookup : Option (Str × Str × Str)
  backup : BackupOutcome
  connectOk : Bool
  txnFail : Option Nat

/-- Observable side effects of a run, listed in order of occurrence. -/
inductive Effect where
  | stopInstance (name : Str)
  | backupTool
  | copyFallback
  | sqlUpdate
  | reportSuccess
deriving DecidableEq

/-- Abnormal terminations.  `nameError` needs a note: the source handles a
failed registry lookup with `except docker.errors.NotFound`, but the module
never imports `docker`, so when the lookup raises, evaluating the `except`
clause itself raises `NameError` and the handler body (the diagnostic message
and the fall-through to explicit flags) is unreachable. -/
inductive RunError where
  | nameError
  | valueError
  | backupError (returncode : Int)
  | connectExit
  | sqlError
deriving DecidableEq

/-- File system model: database files addressed by path; the content of a
database file is its list of viewconf records. -/
def FileSys := Str → List Str

/-- Write one file. -/
def fsWrite (fs : FileSys) (p : Str) (v : List Str) : FileSys :=
  fun q => if q = p then v else fs q

/-- `os.path.join(a, b)` for POSIX paths, as CPython implements it: an
absolute second component replaces the first, otherwise the components are
joined with `"/"` unless the first is empty or already ends in `"/"`. -/
def op_join (dir name : Str) : Str :=
  if name.head? = some '/' then name
  else if dir = [] then name
  else if dir.getLast? = some '/' then dir ++ name
  else dir ++ '/' :: name

/-- Resolution of the origin facts (source lines 102–114).  With a deployment
name, the registry is queried; `docker.errors.NotFound` from the query hits
the `except docker.errors.NotFound` clause, whose evaluation raises
`NameError` (no `import docker` in the module), aborting the run.  Without a
name, a missing explicit `old_site_url` or `old_data_dir` raises
`ValueError`. -/
def resolveOrigin (inp : CliInputs) (w : World) :
    Except RunError (Str × Str × Str) :=
  match inp.old_hg_name with
  | some _ =>
    match w.lookup with
    | some upd => .ok upd
    | none => .error .nameError
  | none =>
    match inp.old_site_url, inp.old_data_dir with
    | some u, some d => .ok (u, inp.old_port, d)
    | _, _ => .error .valueError

/-- Result of a run: the final file system, the effects that occurred in
order, the exit state, and the data directory the run resolved (if it got that
far), from which the two database paths derive. -/
structure RunResult where
  fs : FileSys
  trace : List Effect
  exit : Except RunError Unit
  usedDataDir : Option Str

/-- Connect-and-rewrite phase (source lines 156–183): connect to the snapshot
(`sys.exit(-1)` on failure), then execute the single UPDATE inside the
`with conn` transaction; on commit the snapshot file holds the rewritten
records and the success message is reported; on transaction failure the
rollback leaves the snapshot file unchanged and the exception propagates, so
no success is reported. -/
def rewritePhase (origin destination updatePath ddir : Str) (w : World)
    (fs : FileSys) (trace : List Effect) : RunResult :=
  if w.connectOk then
    let r := runUpdateTxn (fun v => sqliteReplace v origin destination)
      w.txnFail (fs updatePath)
    if r.2 then
      ⟨fsWrite fs updatePath r.1, trace ++ [.sqlUpdate, .reportSuccess],
        .ok (), some ddir⟩
    else
      ⟨fs, trace ++ [.sqlUpdate], .error .sqlError, some ddir⟩
  else
    ⟨fs, trace, .error .connectExit, some ddir⟩

/-- The whole `update_viewconfs` run (source lines 100–183) over an explicit
file system, parameterized by the database filename `sqldb` (the `SQLITEDB`
constant imported from `higlass_manage.common`) and by the behavior of the
external collaborators.  Phases in source order: resolve the origin facts,
canonicalize the two endpoints, derive the two paths, stop the named instance
when one was given, back up the database to the `.updated` path (tool, or raw
copy when the tool is missing; abort on a non-zero tool exit), then connect
and rewrite. -/
def update_viewconfs (sqldb : Str) (inp : CliInputs) (w : World)
    (fs : FileSys) : RunResult :=
  match resolveOrigin inp w with
  | .error e => ⟨fs, [], .error e, none⟩
  | .ok (url, port, ddir) =>
    let origin := endpointOf url port
    let destination := endpointOf inp.new_site_url inp.new_port
    let originPath := op_join ddir sqldb
    let updatePath := op_join ddir (sqldb ++ ".updated".toList)
    let trace0 : List Effect :=
      match inp.old_hg_name with
      | some name => [.stopInstance name]
      | none => []
    match w.backup with
    | .toolRan ret written =>
      let fs1 := fsWrite fs updatePath written
      if ret = 0 then
        rewritePhase origin destination updatePath ddir w fs1
          (trace0 ++ [.backupTool])
      else
        ⟨fs1, trace0 ++ [.backupTool], .error (.backupError ret), some ddir⟩
    | .toolMissing =>
      rewritePhase origin destination updatePath ddir w
        (fsWrite fs updatePath (fs originPath)) (trace0 ++ [.copyFallback])

/-- Fixed head of the statement text, up to and including the opening quote of
the first interpolated literal. -/
def queryHead : Str :=
  ("\n            UPDATE tilesets_viewconf\n            SET viewconf = replace(viewconf,'").toList

/-- Fixed text between the two interpolated strings: closing quote, comma,
opening quote. -/
def querySep : Str := ("','").toList

/-- Fixed tail after the second interpolated string: closing quote, closing
parenthesis, trailing whitespace. -/
def queryTail : Str := ("')\n            ").toList

/-- `querySep` after its leading quote. -/
def querySepRest : Str := (",'").toList

/-- `queryTail` after its leading quote. -/
def queryTailRest : Str := (")\n            ").toList

/-- Text of the interpolated SQL statement (source lines 165–168): the origin
and destination endpoint strings are spliced directly into the statement text
by an f-string, between single quotes. -/
def db_query (origin destination : Str) : Str :=
  queryHead ++ origin ++ querySep ++ destination ++ queryTail

/-- SQLite string-literal scanner, entered after an opening quote: consume
characters up to and including the closing quote, where a doubled quote
denotes an escaped quote character; return the literal's content and the rest
of the input. -/
def scanSqlLiteral : Str → Option (Str × Str)
  | [] => none
  | c :: rest =>
    if c = '\'' then
      match rest with
      | [] => some ([], [])
      | r2c :: r2 =>
        if r2c = '\'' then
          (scanSqlLiteral r2).map (fun p => ('\'' :: p.1, p.2))
        else
          some ([], rest)
    else
      (scanSqlLiteral rest).map (fun p => (c :: p.1, p.2))

/-- Strip an expected exact leading text. -/
def stripExact : Str → Str → Option Str
  | [], s => some s
  | _ :: _, [] => none
  | e :: es, c :: cs => if e = c then stripExact es cs else none

/-- How SQLite reads the statement text produced by `db_query`: the fixed
statement head (ending with the opening quote of the first literal), one
string literal, the separator `,` with the next opening quote, a second string
literal, then `)` and trailing whitespace.  Returns the (pattern, replacement)
pair the executed `replace` call actually receives, or `none` when the text
does not have this shape. -/
def parseQuery (q : Str) : Option (Str × Str) :=
  (stripExact queryHead q).bind fun r1 =>
  (scanSqlLiteral r1).bind fun pr =>
  (stripExact querySepRest pr.2).bind fun r3 =>
  (scanSqlLiteral r3).bind fun pr2 =>
  if pr2.2 = queryTailRest then some (pr.1, pr2.1) else none

theorem joinWith_cons_head (sep : Str) (c : Char) (p : Str) (ps : List Str) :
    joinWith sep ((c :: p) :: ps) = c :: joinWith sep (p :: ps) := by
  cases ps with
  | nil => rfl
  | cons q rest => simp [joinWith]

theorem head_pref_joinWith (sep : Str) (p : Str) (ps : List Str) :
    p <+: joinWith sep (p :: ps) := by
  cases ps with
  | nil => exact List.prefix_rfl
  | cons q rest =>
    exact ⟨sep ++ joinWith sep (q :: rest), by simp [joinWith]⟩

theorem sqliteReplaceAux_nilStr (pat rep : Str) (f : Nat) :
    sqliteReplaceAux pat rep f [] = [] := by
  cases f <;> rfl

/-- A string in which the pattern does not occur is returned unchanged by the
replace scanner. -/
theorem sqliteReplaceAux_noOcc (pat rep : Str) :
    ∀ (f : Nat) (s : Str), s.length ≤ f → ¬ pat <:+: s →
      sqliteReplaceAux pat rep f s = s := by
  intro f
  induction f with
  | zero =>
    intro s hs _
    cases s with
    | nil => rfl
    | cons c cs => simp at hs
  | succ f ih =>
    intro s hs h
    cases s with
    | nil => rfl
    | cons c cs =>
      cases hpre : pat.isPrefixOf (c :: cs) with
      | true =>
        exfalso
        have hpfx : pat <+: (c :: cs) := by
          have := List.isPrefixOf_iff_prefix.mp hpre
          exact this
        exact h ( List.IsPrefix.isInfix hpfx)
      | false =>
        have hcs : ¬ pat <:+: cs := fun hc => h ( List.infix_cons hc)
        have hlen : cs.length ≤ f := by
          simp only [List.length_cons] at hs; omega
        simp [sqliteReplaceAux, hpre, ih cs hlen hcs]

/-- Decomposition produced by the replace scanner: the input splits into
pattern-free pieces separated by occurrences of the pattern, and the output is
the same pieces separated by the replacement. -/
theorem sqliteReplaceAux_decomp (pat rep : Str) (hp : pat ≠ []) :
    ∀ (f : Nat) (s : Str), s.length ≤ f →
      ∃ pieces : List Str, pieces ≠ [] ∧ (∀ p ∈ pieces, ¬ pat <:+: p) ∧
        s = joinWith pat pieces ∧
        sqliteReplaceAux pat rep f s = joinWith rep pieces := by
  intro f
  induction f with
  | zero =>
    intro s hs
    have hnil : s = [] := by
      cases s with
      | nil => rfl
      | cons c cs => simp at hs
    subst hnil
    refine ⟨[[]], by simp, ?_, rfl, by rw [sqliteReplaceAux_nilStr]; rfl⟩
    intro p hmem
    have : p = [] := by simpa using hmem
    subst this
    rw [ List.infix_nil]
    exact hp
  | succ f ih =>
    intro s hs
    cases s with
    | nil =>
      refine ⟨[[]], by simp, ?_, rfl, by rw [sqliteReplaceAux_nilStr]; rfl⟩
      intro p hmem
      have : p = [] := by simpa using hmem
      subst this
      rw [ List.infix_nil]
      exact hp
    | cons c cs =>
      cases hpre : pat.isPrefixOf (c :: cs) with
      | true =>
        have hpfx : pat <+: (c :: cs) := List.isPrefixOf_iff_prefix.mp hpre
        obtain ⟨t, ht⟩ := hpfx
        have hdrop : List.drop pat.length (c :: cs) = t := by
          rw [← ht]; exact List.drop_left pat t
        have hplen : 1 ≤ pat.length := by
          cases pat with
          | nil => exact absurd rfl hp
          | cons a as => simp
        have hlen : t.length ≤ f := by
          have hlen2 : pat.length + t.length = cs.length + 1 := by
            have := congrArg List.length ht
            simpa using this
          simp only [List.length_cons] at hs
          omega
        obtain ⟨ps, hne, hfree, hsplit, hres⟩ := ih t hlen
        obtain ⟨q, rest, rfl⟩ := List.exists_cons_of_ne_nil hne
        refine ⟨[] :: q :: rest, by simp, ?_, ?_, ?_⟩
        · intro p hmem
          rcases List.mem_cons.mp hmem with h1 | h2
          · subst h1; rw [ List.infix_nil]; exact hp
          · exact hfree p h2
        · rw [joinWith, ← hsplit, List.nil_append, ht]
        · rw [sqliteReplaceAux, if_pos hpre, hdrop, hres, joinWith, List.nil_append]
      | false =>
        have hnp : ¬ pat <+: (c :: cs) := by
          intro hcontra
          rw [← List.isPrefixOf_iff_prefix] at hcontra
          rw [hpre] at hcontra
          exact Bool.noConfusion hcontra
        have hlen : cs.length ≤ f := by
          simp only [List.length_cons] at hs; omega
        obtain ⟨ps, hne, hfree, hsplit, hres⟩ := ih cs hlen
        obtain ⟨p, rest, rfl⟩ := List.exists_cons_of_ne_nil hne
        refine ⟨(c :: p) :: rest, by simp, ?_, ?_, ?_⟩
        · intro x hx
          rcases List.mem_cons.mp hx with rfl | hx2
          · intro hinf
            obtain ⟨u, v, huv⟩ := hinf
            cases u with
            | nil =>
              have hpfx2 : pat <+: (c :: p) := ⟨v, by simpa using huv⟩
              have hp_pref : (c :: p) <+: (c :: cs) := by
                rw [hsplit]
                exact List.cons_prefix_cons.mpr ⟨rfl, head_pref_joinWith pat p rest⟩
              exact hnp ( List.IsPrefix.trans hpfx2 hp_pref)
            | cons a u' =>
              have htail : u' ++ pat ++ v = p := by
                have : a :: (u' ++ pat ++ v) = c :: p := by simpa using huv
                injection this with _ h2
              exact hfree p (List.mem_cons_self _ _) ⟨u', v, htail⟩
          · exact hfree x (List.mem_cons_of_mem _ hx2)
        · rw [joinWith_cons_head, ← hsplit]
        · rw [sqliteReplaceAux, if_neg (by rw [hpre]; exact Bool.false_ne_true),
            hres, joinWith_cons_head]

/-- The pattern does not occur in the string: `sqliteReplace` returns it
unchanged (byte-identical). -/
theorem sqliteReplace_noOcc (s pat rep : Str) (h : ¬ pat <:+: s) :
    sqliteReplace s pat rep = s := by
  unfold sqliteReplace
  cases hemp : pat.isEmpty with
  | true =>
    exfalso
    have : pat = [] := List.isEmpty_iff.mp hemp
    subst this
    exact h ( List.nil_infix)
  | false => exact sqliteReplaceAux_noOcc pat rep s.length s (Nat.le_refl _) h

/-- Decomposition characterization for `sqliteReplace` with a nonempty
pattern. -/
theorem sqliteReplace_decomp (s pat rep : Str) (hp : pat ≠ []) :
    ∃ pieces : List Str, pieces ≠ [] ∧ (∀ p ∈ pieces, ¬ pat <:+: p) ∧
      s = joinWith pat pieces ∧ sqliteReplace s pat rep = joinWith rep pieces := by
  unfold sqliteReplace
  rw [if_neg (by simpa using hp)]
  exact sqliteReplaceAux_decomp pat rep hp s.length s (Nat.le_refl _)

theorem updateJournal_full (f : Str → Str) (db : List Str) :
    updateJournal f db.length db = db.map f := by
  simp [updateJournal]

theorem querySep_eq : querySep = '\'' :: querySepRest := rfl

theorem queryTail_eq : queryTail = '\'' :: queryTailRest := rfl

theorem stripExact_append (e r : Str) : stripExact e (e ++ r) = some r := by
  induction e with
  | nil => rfl
  | cons c cs ih => simp [stripExact, ih]

theorem scanSqlLiteral_step (c : Char) (rest : Str) (hc : c ≠ '\'') :
    scanSqlLiteral (c :: rest) =
      (scanSqlLiteral rest).map (fun p => (c :: p.1, p.2)) := by
  cases rest with
  | nil => simp [scanSqlLiteral, hc]
  | cons y ys => simp [scanSqlLiteral, hc]

theorem scanSqlLiteral_close (rest : Str) (h : rest.head? ≠ some '\'') :
    scanSqlLiteral ('\'' :: rest) = some ([], rest) := by
  cases rest with
  | nil => rfl
  | cons y ys =>
    have hy : y ≠ '\'' := by
      intro hcontra; exact h (by simp [hcontra])
    simp [scanSqlLiteral, hy]

/-- A quote-free text followed by a closing quote and a rest that does not
begin with another quote scans to exactly that text. -/
theorem scanSqlLiteral_clean (xs r : Str) (hxs : '\'' ∉ xs)
    (hr : r.head? ≠ some '\'') :
    scanSqlLiteral (xs ++ '\'' :: r) = some (xs, r) := by
  induction xs with
  | nil => simpa using scanSqlLiteral_close r hr
  | cons x xs' ih =>
    have hx : x ≠ '\'' := by
      intro h; exact hxs (by simp [h])
    have hxs' : '\'' ∉ xs' := fun h => hxs (List.mem_cons_of_mem _ h)
    rw [List.cons_append, scanSqlLiteral_step x _ hx, ih hxs']
    rfl

/-- For quote-free endpoint strings the executed statement's `replace` call
receives exactly the two endpoint strings. -/
theorem parseQuery_clean (o d : Str) (ho : '\'' ∉ o) (hd : '\'' ∉ d) :
    parseQuery (db_query o d) = some (o, d) := by
  have hsplit : db_query o d =
      queryHead ++ (o ++ '\'' :: (querySepRest ++ (d ++ '\'' :: queryTailRest))) := by
    simp only [db_query, querySep_eq, queryTail_eq, List.append_assoc,
      List.cons_append]
  rw [parseQuery, hsplit, stripExact_append, Option.some_bind,
    scanSqlLiteral_clean o _ ho (by simp [querySepRest]), Option.some_bind]
  rw [show ((o, querySepRest ++ (d ++ '\'' :: queryTailRest)).2 :
      Str) = querySepRest ++ (d ++ '\'' :: queryTailRest) from rfl]
  rw [stripExact_append, Option.some_bind,
    scanSqlLiteral_clean d _ hd (by simp [queryTailRest]), Option.some_bind]
  rfl

/-- Canonicalization never creates a trailing `":80"`: when neither the site
URL nor the port already ends in `":80"`, the endpoint does not end in
`":80"`. -/
theorem endpointOf_no_trailing (url port : Str)
    (hu : ¬ [':', '8', '0'] <:+ url) (hp : ¬ [':', '8', '0'] <:+ port) :
    ¬ [':', '8', '0'] <:+ endpointOf url port := by
  unfold endpointOf
  by_cases h80 : port = ['8', '0']
  · rw [if_pos h80]; exact hu
  · rw [if_neg h80]
    intro hsuf
    have hpfx : ['0', '8', ':'] <+: port.reverse ++ ':' :: url.reverse := by
      have h1 := List.reverse_prefix.mpr hsuf
      simpa using h1
    cases hrev : port.reverse with
    | nil =>
      rw [hrev, List.nil_append] at hpfx
      have := (List.cons_prefix_cons.mp hpfx).1
      exact absurd this (by decide)
    | cons c1 pr1 =>
      cases pr1 with
      | nil =>
        rw [hrev] at hpfx
        simp only [List.cons_append, List.nil_append] at hpfx
        obtain ⟨_, hpfx1⟩ := List.cons_prefix_cons.mp hpfx
        have := (List.cons_prefix_cons.mp hpfx1).1
        exact absurd this (by decide)
      | cons c2 pr2 =>
        cases pr2 with
        | nil =>
          rw [hrev] at hpfx
          simp only [List.cons_append, List.nil_append] at hpfx
          obtain ⟨hc1, hpfx1⟩ := List.cons_prefix_cons.mp hpfx
          obtain ⟨hc2, _⟩ := List.cons_prefix_cons.mp hpfx1
          apply h80
          have : port.reverse = ['0', '8'] := by rw [hrev, ← hc1, ← hc2]
          have hport : port = ['8', '0'] := by
            rw [← List.reverse_reverse port, this]; rfl
          exact hport
        | cons c3 rest =>
          apply hp
          rw [hrev] at hpfx
          simp only [List.cons_append] at hpfx
          obtain ⟨hc1, hpfx1⟩ := List.cons_prefix_cons.mp hpfx
          obtain ⟨hc2, hpfx2⟩ := List.cons_prefix_cons.mp hpfx1
          obtain ⟨hc3, _⟩ := List.cons_prefix_cons.mp hpfx2
          have hpfxPort : ['0', '8', ':'] <+: port.reverse := by
            rw [hrev, ← hc1, ← hc2, ← hc3]
            exact ⟨rest, rfl⟩
          have h2 : List.reverse [':', '8', '0'] <+: List.reverse port := by
            have hrw : List.reverse [':', '8', '0'] = (['0', '8', ':'] : Str) := by
              decide
            rw [hrw]; exact hpfxPort
          exact List.reverse_prefix.mp h2

/-- Pointwise-fixed maps are the identity on a list. -/
theorem mapSelf {f : Str → Str} :
    ∀ l : List Str, (∀ x ∈ l, f x = x) → l.map f = l := by
  intro l
  induction l with
  | nil => intro _; rfl
  | cons x xs ih =>
    intro h
    rw [List.map_cons, h x (List.mem_cons_self _ _),
      ih (fun y hy => h y (List.mem_cons_of_mem _ hy))]

/-- C1: after the UPDATE-with-replace rewrite, every configuration record that
contained the (nonempty) origin endpoint as a literal substring has every
occurrence of it replaced by the destination endpoint — the record decomposes
into at least two origin-free pieces joined by occurrences of the origin, and
the rewritten record is exactly the same pieces joined by the destination —
and every record that did not contain the origin endpoint substring is
byte-identical to its pre-rewrite content. -/
theorem C1_exhaustive_substitution (db : List Str) (origin destination : Str)
    (h : origin ≠ []) :
    rewriteSnapshot db origin destination =
      db.map (fun v => sqliteReplace v origin destination) ∧
    ∀ v ∈ db,
      (¬ origin <:+: v → sqliteReplace v origin destination = v) ∧
      (origin <:+: v → ∃ pieces : List Str, 2 ≤ pieces.length ∧
        (∀ p ∈ pieces, ¬ origin <:+: p) ∧
        v = joinWith origin pieces ∧
        sqliteReplace v origin destination = joinWith destination pieces) := by
  refine ⟨rfl, ?_⟩
  intro v _
  constructor
  · exact fun h2 => sqliteReplace_noOcc v origin destination h2
  · intro hocc
    obtain ⟨pieces, hne, hfree, hsplit, hres⟩ :=
      sqliteReplace_decomp v origin destination h
    refine ⟨pieces, ?_, hfree, hsplit, hres⟩
    cases pieces with
    | nil => exact absurd rfl hne
    | cons p ps =>
      cases ps with
      | nil =>
        exfalso
        have hv : v = p := by simpa [joinWith] using hsplit
        exact hfree p (List.mem_cons_self _ _) (hv ▸ hocc)
      | cons q rest => simp

/-- Witness for C1 at a concrete snapshot: origin `"ab"`, destination `"c"`,
records `"xabyab"` (two occurrences) and `"uv"` (none). -/
theorem C1_witness :
    (("ab").toList ≠ ([] : Str)) ∧
    (rewriteSnapshot [("xabyab").toList, ("uv").toList] ("ab").toList ("c").toList =
      [("xabyab").toList, ("uv").toList].map
        (fun v => sqliteReplace v ("ab").toList ("c").toList) ∧
    ∀ v ∈ [("xabyab").toList, ("uv").toList],
      (¬ ("ab").toList <:+: v → sqliteReplace v ("ab").toList ("c").toList = v) ∧
      (("ab").toList <:+: v → ∃ pieces : List Str, 2 ≤ pieces.length ∧
        (∀ p ∈ pieces, ¬ ("ab").toList <:+: p) ∧
        v = joinWith ("ab").toList pieces ∧
        sqliteReplace v ("ab").toList ("c").toList =
          joinWith ("c").toList pieces)) :=
  ⟨by decide, C1_exhaustive_substitution _ _ _ (by decide)⟩

/-- C2: the UPDATE over all records executes as a single transaction: when it
commits, every record carries its rewritten text at once; when it fails at any
record index, the visible records are exactly the pre-rewrite ones (no partial
write). -/
theorem C2_transaction_atomicity (db : List Str) (origin destination : Str)
    (failAt : Option Nat) :
    (failAt = none →
      runUpdateTxn (fun v => sqliteReplace v origin destination) failAt db =
        (rewriteSnapshot db origin destination, true)) ∧
    (∀ k, failAt = some k →
      runUpdateTxn (fun v => sqliteReplace v origin destination) failAt db =
        (db, false)) := by
  constructor
  · intro h
    subst h
    simp [runUpdateTxn, updateJournal_full, rewriteSnapshot]
  · intro k h
    subst h
    rfl

/-- Witness for C2: a transaction failing at record index 0 leaves the
concrete snapshot exactly in its pre-rewrite state. -/
theorem C2_witness :
    runUpdateTxn (fun v => sqliteReplace v ("a").toList ("b").toList)
      (some 0) [("a").toList] = ([("a").toList], false) :=
  (C2_transaction_atomicity [("a").toList] ("a").toList ("b").toList
    (some 0)).2 0 rfl

theorem self_ne_append (l e : Str) (he : e ≠ []) : l ≠ l ++ e := by
  intro h
  have hl := congrArg List.length h
  rw [List.length_append] at hl
  have h0 : e.length = 0 := by omega
  exact he (List.length_eq_zero.mp h0)

/-- `os.path.join` with a fixed directory is injective on relative (not
`/`-initial) final components. -/
theorem op_join_inj_right (d a b : Str) (ha : a.head? ≠ some '/')
    (hb : b.head? ≠ some '/') (hne : a ≠ b) : op_join d a ≠ op_join d b := by
  simp only [op_join, if_neg ha, if_neg hb]
  by_cases hd : d = []
  · simp only [if_pos hd]
    exact hne
  · rw [if_neg hd, if_neg hd]
    by_cases hl : d.getLast? = some '/'
    · rw [if_pos hl, if_pos hl]
      intro h
      exact hne (List.append_cancel_left h)
    · rw [if_neg hl, if_neg hl]
      intro h
      have h2 := List.append_cancel_left h
      injection h2 with _ h3
      exact hne h3

/-- The original database path and the `.updated` snapshot path are always
distinct. -/
theorem op_join_ne_updated (d sqldb : Str) :
    op_join d sqldb ≠ op_join d (sqldb ++ (".updated").toList) := by
  have hext : (".updated").toList ≠ ([] : Str) := by decide
  have hne : sqldb ≠ sqldb ++ (".updated").toList :=
    self_ne_append sqldb _ hext
  cases hh : sqldb.head? with
  | none =>
    have hnil : sqldb = [] := by
      cases sqldb with
      | nil => rfl
      | cons c cs => simp at hh
    subst hnil
    exact op_join_inj_right d [] _ (by simp) (by decide) hne
  | some c =>
    obtain ⟨cs, rfl⟩ : ∃ cs, sqldb = c :: cs := by
      cases sqldb with
      | nil => simp at hh
      | cons x xs =>
        have : x = c := by simpa using hh
        exact ⟨xs, by rw [this]⟩
    by_cases hc : c = '/'
    · subst hc
      simp only [op_join, List.cons_append, List.head?_cons, if_pos rfl]
      exact hne
    · have ha : (c :: cs).head? ≠ some '/' := by simp [hc]
      have hb : ((c :: cs) ++ (".updated").toList).head? ≠ some '/' := by
        simp [hc]
      exact op_join_inj_right d _ _ ha hb hne

theorem fsWrite_ne (fs : FileSys) (p q : Str) (v : List Str) (hq : q ≠ p) :
    fsWrite fs p v q = fs q := by
  simp [fsWrite, hq]

/-- The connect-and-rewrite phase never touches any path other than the
snapshot path. -/
theorem rewritePhase_fs_ne (origin destination up ddir : Str) (w : World)
    (fs1 : FileSys) (tr : List Effect) (q : Str) (hq : q ≠ up) :
    (rewritePhase origin destination up ddir w fs1 tr).fs q = fs1 q := by
  cases hcok : w.connectOk with
  | false => simp [rewritePhase, hcok]
  | true =>
    cases htf : w.txnFail with
    | none => simp [rewritePhase, hcok, htf, runUpdateTxn, fsWrite, hq]
    | some k => simp [rewritePhase, hcok, htf, runUpdateTxn]

/-- A run never writes any path other than the `.updated` snapshot path of the
resolved data directory. -/
theorem update_viewconfs_fs_ne (sqldb : Str) (inp : CliInputs) (w : World)
    (fs : FileSys) (url port ddir : Str)
    (hres : resolveOrigin inp w = .ok (url, port, ddir)) (q : Str)
    (hq : q ≠ op_join ddir (sqldb ++ (".updated").toList)) :
    (update_viewconfs sqldb inp w fs).fs q = fs q := by
  cases hbk : w.backup with
  | toolRan ret written =>
    by_cases hret : ret = 0
    · simp only [update_viewconfs, hres, hbk, if_pos hret]
      rw [rewritePhase_fs_ne _ _ _ _ _ _ _ _ hq]
      exact fsWrite_ne _ _ _ _ hq
    · simp only [update_viewconfs, hres, hbk, if_neg hret]
      exact fsWrite_ne _ _ _ _ hq
  | toolMissing =>
    simp only [update_viewconfs, hres, hbk]
    rw [rewritePhase_fs_ne _ _ _ _ _ _ _ _ hq]
    exact fsWrite_ne _ _ _ _ hq

/-- On failed resolution the run performs no effect at all. -/
theorem update_viewconfs_err (sqldb : Str) (inp : CliInputs) (w : World)
    (fs : FileSys) (e : RunError) (hres : resolveOrigin inp w = .error e) :
    update_viewconfs sqldb inp w fs = ⟨fs, [], .error e, none⟩ := by
  simp [update_viewconfs, hres]

/-- The resolved data directory reported by a run. -/
theorem update_viewconfs_usedDataDir (sqldb : Str) (inp : CliInputs) (w : World)
    (fs : FileSys) (url port ddir : Str)
    (hres : resolveOrigin inp w = .ok (url, port, ddir)) :
    (update_viewconfs sqldb inp w fs).usedDataDir = some ddir := by
  cases hbk : w.backup with
  | toolRan ret written =>
    by_cases hret : ret = 0
    · simp only [update_viewconfs, hres, hbk, if_pos hret]
      cases hcok : w.connectOk with
      | false => simp [rewritePhase, hcok]
      | true =>
        cases htf : w.txnFail with
        | none => simp [rewritePhase, hcok, htf, runUpdateTxn]
        | some k => simp [rewritePhase, hcok, htf, runUpdateTxn]
    · simp [update_viewconfs, hres, hbk, if_neg hret]
  | toolMissing =>
    simp only [update_viewconfs, hres, hbk]
    cases hcok : w.connectOk with
    | false => simp [rewritePhase, hcok]
    | true =>
      cases htf : w.txnFail with
      | none => simp [rewritePhase, hcok, htf, runUpdateTxn]
      | some k => simp [rewritePhase, hcok, htf, runUpdateTxn]

/-- C3: whatever the outcome of a run — resolution failure, backup failure,
connect failure, transaction failure, or success — the content of the
original database file `<data_dir>/<dbname>` is identical before and after;
only the `<dbname>.updated` snapshot path is ever written. -/
theorem C3_non_destruction (sqldb : Str) (inp : CliInputs) (w : World)
    (fs : FileSys) (d : Str) :
    ((update_viewconfs sqldb inp w fs).usedDataDir = some d →
      (update_viewconfs sqldb inp w fs).fs (op_join d sqldb) =
        fs (op_join d sqldb)) ∧
    ((update_viewconfs sqldb inp w fs).usedDataDir = none →
      (update_viewconfs sqldb inp w fs).fs = fs) := by
  cases hres : resolveOrigin inp w with
  | error e =>
    rw [update_viewconfs_err sqldb inp w fs e hres]
    exact And.intro (fun h => by cases h) (fun _ => rfl)
  | ok upd =>
    obtain ⟨url, port, ddir⟩ := upd
    constructor
    · intro hused
      rw [update_viewconfs_usedDataDir sqldb inp w fs url port ddir hres] at hused
      have hdd : ddir = d := by injection hused
      subst hdd
      exact update_viewconfs_fs_ne sqldb inp w fs url port ddir hres _
        (op_join_ne_updated ddir sqldb)
    · intro hused
      rw [update_viewconfs_usedDataDir sqldb inp w fs url port ddir hres] at hused
      cases hused

/-- Witness for C3: a concrete successful run leaves the original database
file untouched. -/
theorem C3_witness :
    ((update_viewconfs ("db.sqlite3").toList
        ⟨none, some ("http://old").toList, ("80").toList,
          some ("hg-data").toList, ("http://new").toList, ("80").toList⟩
        ⟨none, .toolRan 0 [("v").toList], true, none⟩
        (fun _ => [("http://old/x").toList])).usedDataDir =
      some ("hg-data").toList) ∧
    ((update_viewconfs ("db.sqlite3").toList
        ⟨none, some ("http://old").toList, ("80").toList,
          some ("hg-data").toList, ("http://new").toList, ("80").toList⟩
        ⟨none, .toolRan 0 [("v").toList], true, none⟩
        (fun _ => [("http://old/x").toList])).fs
        (op_join ("hg-data").toList ("db.sqlite3").toList) =
      (fun (_ : Str) => [("http://old/x").toList])
        (op_join ("hg-data").toList ("db.sqlite3").toList)) :=
  And.intro (by rfl)
    ((C3_non_destruction ("db.sqlite3").toList
      ⟨none, some ("http://old").toList, ("80").toList,
        some ("hg-data").toList, ("http://new").toList, ("80").toList⟩
      ⟨none, .toolRan 0 [("v").toList], true, none⟩
      (fun _ => [("http://old/x").toList]) ("hg-data").toList).1 (by rfl))

/-- C4 counterexample: the claim that the canonical form never contains a
trailing `":80"` fails when the site URL itself ends in `":80"`: resolving
`"http://h:80"` with port `"80"` yields `"http://h:80"`, which ends in
`":80"`. -/
theorem C4_counterexample :
    [':', '8', '0'] <:+
      resolveEndpoint ("http://h:80").toList (some (("80").toList)) := by
  decide

/-- C4 (amended): the canonicalization satisfies
`resolve(url, "80") = resolve(url, None)`; it never introduces a trailing
`":80"` — whenever neither the site URL nor the port already ends in `":80"`,
the canonical form does not end in `":80"` (the unamended claim fails exactly
when the URL or port carries such an ending itself); and for every port other
than `"80"` the canonical form is `url ++ ":" ++ port`.  The identical rule
produces both the origin and the destination in `update_viewconfs`. -/
theorem C4_port_default (url port : Str) :
    resolveEndpoint url (some (("80").toList)) = resolveEndpoint url none ∧
    (¬ [':', '8', '0'] <:+ url → ¬ [':', '8', '0'] <:+ port →
      ¬ [':', '8', '0'] <:+ endpointOf url port) ∧
    (port ≠ ("80").toList → endpointOf url port = url ++ ':' :: port) := by
  refine ⟨rfl, endpointOf_no_trailing url port, ?_⟩
  intro hne
  unfold endpointOf
  rw [if_neg (by exact hne)]

/-- Witness for C4 at `url = "http://old"`, `port = "9000"`. -/
theorem C4_witness :
    (¬ [':', '8', '0'] <:+ ("http://old").toList) ∧
    (¬ [':', '8', '0'] <:+ ("9000").toList) ∧
    (¬ [':', '8', '0'] <:+ endpointOf ("http://old").toList (("9000").toList)) ∧
    (("9000").toList ≠ ("80").toList) ∧
    (endpointOf ("http://old").toList (("9000").toList) =
      ("http://old").toList ++ ':' :: ("9000").toList) :=
  ⟨by decide, by decide,
    (C4_port_default ("http://old").toList (("9000").toList)).2.1
      (by decide) (by decide),
    by decide,
    (C4_port_default ("http://old").toList (("9000").toList)).2.2 (by decide)⟩

/-- C5 counterexample: with origin `"ab"` and destination `"a"`, the record
`"abb"` rewrites to `"ab"`, which still contains the origin, and a second run
rewrites it further to `"a"`: the rewrite is not idempotent for every pair of
endpoint strings. -/
theorem C5_counterexample :
    rewriteSnapshot
        (rewriteSnapshot [("abb").toList] ("ab").toList (("a").toList))
        ("ab").toList (("a").toList) ≠
      rewriteSnapshot [("abb").toList] ("ab").toList (("a").toList) := by
  decide

/-- C5 (amended): running the rewrite twice produces no further change
provided the origin string no longer occurs in any record after the first run
— which is exactly the "origin count is already zero" premise of the claim,
guaranteed outside substring-collision cases such as the counterexample. -/
theorem C5_idempotence (db : List Str) (origin destination : Str)
    (h : ∀ v ∈ rewriteSnapshot db origin destination, ¬ origin <:+: v) :
    rewriteSnapshot (rewriteSnapshot db origin destination) origin
        destination =
      rewriteSnapshot db origin destination := by
  unfold rewriteSnapshot at h ⊢
  exact mapSelf _ (fun x hx => sqliteReplace_noOcc x origin destination (h x hx))

/-- Witness for C5: origin `"ab"`, destination `"c"`, record `"xaby"`. -/
theorem C5_witness :
    (∀ v ∈ rewriteSnapshot [("xaby").toList] ("ab").toList (("c").toList),
      ¬ ("ab").toList <:+: v) ∧
    rewriteSnapshot
        (rewriteSnapshot [("xaby").toList] ("ab").toList (("c").toList))
        ("ab").toList (("c").toList) =
      rewriteSnapshot [("xaby").toList] ("ab").toList (("c").toList) :=
  ⟨by decide, C5_idempotence _ _ _ (by decide)⟩

/-- C6 (code evaluation): when a deployment name is supplied and the registry
lookup fails, the run aborts with `NameError` — the `except
docker.errors.NotFound` clause evaluates the unimported name `docker` — so
the failure is not reported as claimed, the run never falls through to the
explicit origin flags, and no `ValueError`-style configuration error is
raised; no side effect occurs. -/
theorem C6_lookup_failure_nameError (sqldb : Str) (inp : CliInputs) (w : World)
    (fs : FileSys) (name : Str) (hname : inp.old_hg_name = some name)
    (hlk : w.lookup = none) :
    update_viewconfs sqldb inp w fs = ⟨fs, [], .error .nameError, none⟩ := by
  have hres : resolveOrigin inp w = .error .nameError := by
    simp [resolveOrigin, hname, hlk]
  exact update_viewconfs_err sqldb inp w fs _ hres

/-- Witness for C6 at a concrete failing input. -/
theorem C6_witness :
    update_viewconfs ("db.sqlite3").toList
        ⟨some ("hg").toList, none, ("80").toList, none,
          ("http://new").toList, ("80").toList⟩
        ⟨none, .toolMissing, true, none⟩ (fun _ => []) =
      ⟨fun _ => [], [], .error .nameError, none⟩ :=
  C6_lookup_failure_nameError _ _ _ _ ("hg").toList rfl rfl

/-- C7: with no deployment name supplied and the explicit origin site URL or
data directory absent, the run raises `ValueError` before performing any side
effect: no stop request, no snapshot file creation, no database write. -/
theorem C7_config_error (sqldb : Str) (inp : CliInputs) (w : World)
    (fs : FileSys) (hname : inp.old_hg_name = none)
    (hmiss : inp.old_site_url = none ∨ inp.old_data_dir = none) :
    update_viewconfs sqldb inp w fs = ⟨fs, [], .error .valueError, none⟩ := by
  have hres : resolveOrigin inp w = .error .valueError := by
    rcases hmiss with h | h
    · simp [resolveOrigin, hname, h]
    · cases hsu : inp.old_site_url <;> simp [resolveOrigin, hname, h, hsu]
  exact update_viewconfs_err sqldb inp w fs _ hres

/-- Witness for C7: explicit data directory given but no site URL and no
deployment name. -/
theorem C7_witness :
    update_viewconfs ("db.sqlite3").toList
        ⟨none, none, ("80").toList, some ("hg-data").toList,
          ("http://new").toList, ("80").toList⟩
        ⟨none, .toolMissing, true, none⟩ (fun _ => []) =
      ⟨fun _ => [], [], .error .valueError, none⟩ :=
  C7_config_error _ _ _ _ rfl (Or.inl rfl)

/-- C8: when the backup tool runs and returns a non-zero exit status, the run
aborts with the corresponding `RuntimeError` without ever attempting the
rewrite step: no UPDATE effect occurs and no success message is emitted. -/
theorem C8_backup_tool_error (sqldb : Str) (inp : CliInputs) (w : World)
    (fs : FileSys) (url port ddir : Str) (ret : Int) (written : List Str)
    (hres : resolveOrigin inp w = .ok (url, port, ddir))
    (hbk : w.backup = .toolRan ret written) (hret : ret ≠ 0) :
    (update_viewconfs sqldb inp w fs).exit = .error (.backupError ret) ∧
    Effect.sqlUpdate ∉ (update_viewconfs sqldb inp w fs).trace ∧
    Effect.reportSuccess ∉ (update_viewconfs sqldb inp w fs).trace := by
  cases hname : inp.old_hg_name with
  | none => simp [update_viewconfs, hres, hbk, if_neg hret, hname]
  | some n => simp [update_viewconfs, hres, hbk, if_neg hret, hname]

/-- Witness for C8 at a concrete run with tool exit status 1. -/
theorem C8_witness :
    (resolveOrigin
        ⟨none, some ("http://old").toList, ("80").toList,
          some ("hg-data").toList, ("http://new").toList, ("80").toList⟩
        ⟨none, .toolRan 1 [], true, none⟩ =
      .ok (("http://old").toList, ("80").toList, ("hg-data").toList)) ∧
    ((⟨none, .toolRan 1 [], true, none⟩ : World).backup = .toolRan 1 []) ∧
    ((1 : Int) ≠ 0) ∧
    ((update_viewconfs ("db.sqlite3").toList
        ⟨none, some ("http://old").toList, ("80").toList,
          some ("hg-data").toList, ("http://new").toList, ("80").toList⟩
        ⟨none, .toolRan 1 [], true, none⟩ (fun _ => [])).exit =
      .error (.backupError 1) ∧
    Effect.sqlUpdate ∉ (update_viewconfs ("db.sqlite3").toList
        ⟨none, some ("http://old").toList, ("80").toList,
          some ("hg-data").toList, ("http://new").toList, ("80").toList⟩
        ⟨none, .toolRan 1 [], true, none⟩ (fun _ => [])).trace ∧
    Effect.reportSuccess ∉ (update_viewconfs ("db.sqlite3").toList
        ⟨none, some ("http://old").toList, ("80").toList,
          some ("hg-data").toList, ("http://new").toList, ("80").toList⟩
        ⟨none, .toolRan 1 [], true, none⟩ (fun _ => [])).trace) :=
  ⟨rfl, rfl, by decide,
    C8_backup_tool_error _ _ _ _ _ _ _ 1 [] rfl rfl (by decide)⟩

/-- C9: in every run where a deployment name was supplied, the effect trace is
either empty (the run aborted during resolution, before any effect) or begins
with the stop request for that deployment, followed by backup, rewrite and
report steps in that fixed order: the snapshot step never precedes the stop
step. -/
theorem C9_stop_before_backup (sqldb : Str) (inp : CliInputs) (w : World)
    (fs : FileSys) (name : Str) (hname : inp.old_hg_name = some name) :
    (update_viewconfs sqldb inp w fs).trace = [] ∨
    ∃ rest, (update_viewconfs sqldb inp w fs).trace =
        Effect.stopInstance name :: rest ∧
      List.Sublist rest [Effect.backupTool, Effect.copyFallback,
        Effect.sqlUpdate, Effect.reportSuccess] := by
  cases hlk : w.lookup with
  | none =>
    left
    have hres : resolveOrigin inp w = .error .nameError := by
      simp [resolveOrigin, hname, hlk]
    rw [update_viewconfs_err sqldb inp w fs _ hres]
  | some upd =>
    obtain ⟨url, port, ddir⟩ := upd
    have hres : resolveOrigin inp w = .ok (url, port, ddir) := by
      simp [resolveOrigin, hname, hlk]
    right
    cases hbk : w.backup with
    | toolRan ret written =>
      by_cases hret : ret = 0
      · cases hcok : w.connectOk with
        | false =>
          refine ⟨[Effect.backupTool], ?_, by decide⟩
          simp [update_viewconfs, hres, hbk, if_pos hret, rewritePhase, hcok,
            hname]
        | true =>
          cases htf : w.txnFail with
          | none =>
            refine ⟨[Effect.backupTool, Effect.sqlUpdate,
              Effect.reportSuccess], ?_, by decide⟩
            simp [update_viewconfs, hres, hbk, if_pos hret, rewritePhase,
              hcok, htf, runUpdateTxn, hname]
          | some k =>
            refine ⟨[Effect.backupTool, Effect.sqlUpdate], ?_, by decide⟩
            simp [update_viewconfs, hres, hbk, if_pos hret, rewritePhase,
              hcok, htf, runUpdateTxn, hname]
      · refine ⟨[Effect.backupTool], ?_, by decide⟩
        simp [update_viewconfs, hres, hbk, if_neg hret, hname]
    | toolMissing =>
      cases hcok : w.connectOk with
      | false =>
        refine ⟨[Effect.copyFallback], ?_, by decide⟩
        simp [update_viewconfs, hres, hbk, rewritePhase, hcok, hname]
      | true =>
        cases htf : w.txnFail with
        | none =>
          refine ⟨[Effect.copyFallback, Effect.sqlUpdate,
            Effect.reportSuccess], ?_, by decide⟩
          simp [update_viewconfs, hres, hbk, rewritePhase, hcok, htf,
            runUpdateTxn, hname]
        | some k =>
          refine ⟨[Effect.copyFallback, Effect.sqlUpdate], ?_, by decide⟩
          simp [update_viewconfs, hres, hbk, rewritePhase, hcok, htf,
            runUpdateTxn, hname]

/-- Witness for C9 at a concrete run with a named deployment. -/
theorem C9_witness :
    (update_viewconfs ("db.sqlite3").toList
        ⟨some ("hg").toList, none, ("80").toList, none,
          ("http://new").toList, ("80").toList⟩
        ⟨some (("http://old").toList, ("80").toList, ("hg-data").toList),
          .toolRan 0 [], true, none⟩ (fun _ => [])).trace = [] ∨
    ∃ rest, (update_viewconfs ("db.sqlite3").toList
        ⟨some ("hg").toList, none, ("80").toList, none,
          ("http://new").toList, ("80").toList⟩
        ⟨some (("http://old").toList, ("80").toList, ("hg-data").toList),
          .toolRan 0 [], true, none⟩ (fun _ => [])).trace =
        Effect.stopInstance ("hg").toList :: rest ∧
      List.Sublist rest [Effect.backupTool, Effect.copyFallback,
        Effect.sqlUpdate, Effect.reportSuccess] :=
  C9_stop_before_backup _ _ _ _ ("hg").toList rfl

/-- C10: the endpoints are interpolated directly into the SQL statement text,
so the executed statement is the intended literal replacement exactly when
neither endpoint contains a single quote: with quote-free endpoints the
`replace` call receives the two endpoint strings verbatim, while for an
origin containing a single quote the statement text no longer parses to the
intended pair (the quote terminates the SQL string literal). -/
theorem C10_sql_interpolation :
    (∀ origin destination : Str, '\'' ∉ origin → '\'' ∉ destination →
      parseQuery (db_query origin destination) = some (origin, destination)) ∧
    parseQuery (db_query ("http://o'ld").toList (("http://new").toList)) ≠
      some (("http://o'ld").toList, ("http://new").toList) := by
  constructor
  · exact parseQuery_clean
  · decide

/-- Witness for C10's universally quantified part at concrete quote-free
endpoints. -/
theorem C10_witness :
    ('\'' ∉ ("http://old:9000").toList) ∧
    ('\'' ∉ ("http://new").toList) ∧
    parseQuery (db_query ("http://old:9000").toList (("http://new").toList)) =
      some (("http://old:9000").toList, ("http://new").toList) :=
  ⟨by decide, by decide,
    C10_sql_interpolation.1 _ _ (by decide) (by decide)⟩

end HiglassManage
